import Mathlib

/-!
Verification development for the ESP8266 DHT22 temperature/humidity
graphing sketch (src/ESP8266_DHT22_Temp_Humi_Graphs_v4.ino).

The sketch keeps two fixed-size rolling sample arrays
(`temp_readings`, `humi_readings`, each with `max_readings + 1 = 201`
float slots, slot 0 unused after setup), appends one reading per loop
iteration, scrolls the arrays left once full, tracks running extrema,
and renders each array with `DrawGraph`, an autoscaling line/bar chart
routine emitting primitive TFT draw calls.

Shallow embedding conventions:
  - C++ `float` values are idealised as rationals; a possibly-NaN float
    (as produced by a failed DHT read) is `Option Rat` with `none` = NaN.
  - C++ `int` is `Int`; `int` division truncates toward zero
    (`Int.div`), and `float`-to-`int` conversion truncates toward zero.
  - `tft.*` primitives are modelled as an emitted list of `DrawCall`s.
  - Arrays are Lean lists indexed with `List.getD` / `List.set`.
-/

set_option maxRecDepth 8000

/-- A C++ float that may be NaN: `none` models NaN (a failed sensor
read), `some q` a finite value idealised as a rational. -/
abbrev FVal := Option ℚ

/-- C++ float-to-int conversion: truncation toward zero.  For a
rational in lowest terms this is the truncating division of the
numerator by the denominator (equal to `⌊q⌋` for `0 ≤ q` and to `⌈q⌉`
for `q < 0`, proved below). -/
def cppTrunc (q : ℚ) : ℤ := q.num.tdiv q.den

/-- C++ `int` division: truncation toward zero. -/
def cppDiv (a b : ℤ) : ℤ := a.tdiv b

/-- Arduino `constrain(amt, low, high)` macro:
`(amt)<(low) ? (low) : ((amt)>(high) ? (high) : (amt))`. -/
def constrain (amt low high : ℚ) : ℚ :=
  if amt < low then low else if amt > high then high else amt

/-- Colour constants from the sketch (16-bit RGB565 values). -/
def WHITE : ℤ := 0xFFFF

/-- Colour constant `YELLOW` from the sketch. -/
def YELLOW : ℤ := 0xFFE0

/-- Colour constant `RED` from the sketch. -/
def RED : ℤ := 0xF800

/-- Colour constant `BLUE` from the sketch. -/
def BLUE : ℤ := 0x001F

/-- Constant `max_readings` from the sketch: capacity of each rolling array. -/
def max_readings : ℕ := 200

/-- One primitive display operation issued by `DrawGraph` to the
`Adafruit_ILI9341` driver. -/
inductive DrawCall where
  | drawRect (x y w h colour : ℤ)
  | setTextSize (s : ℤ)
  | setTextColor (c : ℤ)
  | setCursor (x y : ℤ)
  | printStr (s : String)
  | printInt (n : ℤ)
  | drawLine (x1 y1 x2 y2 colour : ℤ)
  | drawPixel (x y colour : ℤ)
  | drawFastHLine (x y w colour : ℤ)
  deriving DecidableEq

/-- The parameters of one `DrawGraph` call (the Graph Render Request). -/
structure GParams where
  x_pos : ℤ
  y_pos : ℤ
  width : ℤ
  height : ℤ
  Y1Max : ℤ
  title : String
  auto_scale : Bool
  barchart_mode : Bool
  graph_colour : ℤ
  deriving DecidableEq

/-- The autoscale scan loop of `DrawGraph` (line 90):
`for (int i=1; i <= max_readings; i++) if (maxYscale <= DataArray[i]) maxYscale = DataArray[i];`
with `maxYscale : int`, so each assignment truncates the float toward
zero.  The data array is threaded through untouched (the loop only
reads it); the counter runs `i, i+1, ...` for `fuel` iterations. -/
def scanAux (data : List ℚ) (m : ℤ) (i : ℕ) : ℕ → List ℚ × ℤ
  | 0 => (data, m)
  | fuel + 1 =>
      scanAux data
        (if (m : ℚ) ≤ data.getD i 0 then cppTrunc (data.getD i 0) else m)
        (i + 1) fuel

/-- The value of `maxYscale` after the autoscale scan over slots
`1 .. cap` (starting from `maxYscale = 0`). -/
def scanMax (cap : ℕ) (data : List ℚ) : ℤ := (scanAux data 0 1 cap).2

/-- The effective Y-axis upper bound used by `DrawGraph` (lines 88-93):
when autoscale is on, `maxYscale = ((maxYscale + 5 + 2) / 5) * 5` (C++
truncating integer division, `auto_scale_major_tick = 5`), and
`if (maxYscale < Y1Max) Y1Max = maxYscale`. -/
def effectiveBound (auto_scale : Bool) (maxYscale hint : ℤ) : ℤ :=
  if auto_scale then
    let c := cppDiv (maxYscale + 5 + 2) 5 * 5
    if c < hint then c else hint
  else hint

/-- The scaled y-coordinate `y2` of `DrawGraph`'s series loop
(line 108):
`y2 = y_pos + height - constrain(DataArray[gx],0,Y1Max) * height / Y1Max + 1;`
computed in float arithmetic and truncated toward zero on assignment to
the `int` variable `y2`. -/
def py (y_pos height Y1Max : ℤ) (v : ℚ) : ℤ :=
  cppTrunc ((y_pos : ℚ) + (height : ℚ)
    - constrain v 0 (Y1Max : ℚ) * (height : ℚ) / (Y1Max : ℚ) + 1)

/-- The series-draw loop of `DrawGraph` (lines 104-115), for
`gx = i, i+1, ...` over `fuel` iterations (the sketch runs
`gx = 1 .. max_readings`).  `x2` recomputes the same expression as
`x1`, as in the source.  The data array is threaded through (the loop
only reads it). -/
def seriesAux (P : GParams) (Y1 : ℤ) (cap : ℕ) (data : List ℚ) (gx : ℕ) :
    ℕ → List ℚ × List DrawCall
  | 0 => (data, [])
  | fuel + 1 =>
      let x1 := P.x_pos + cppDiv ((gx : ℤ) * P.width) (cap : ℤ)
      let y1 := P.y_pos + P.height
      let x2 := P.x_pos + cppDiv ((gx : ℤ) * P.width) (cap : ℤ)
      let y2 := py P.y_pos P.height Y1 (data.getD gx 0)
      let rest := seriesAux P Y1 cap data (gx + 1) fuel
      (rest.1,
        (if P.barchart_mode then
          [DrawCall.drawLine x1 y1 x2 y2 P.graph_colour]
        else
          [DrawCall.drawPixel x2 y2 P.graph_colour,
           DrawCall.drawPixel x2 (y2 - 1) P.graph_colour]) ++ rest.2)

/-- The inner dashed-gridline loop of `DrawGraph` (lines 119-121):
`for (int j=0; j < number_of_dashes; j++)` with
`number_of_dashes = 40`; the `drawFastHLine` is guarded by
`spacing < yticks` (`yticks = 5`). -/
def dashAux (P : GParams) (spacing : ℕ) (j : ℕ) : ℕ → List DrawCall
  | 0 => []
  | fuel + 1 =>
      (if spacing < 5 then
        [DrawCall.drawFastHLine (P.x_pos + 1 + cppDiv ((j : ℤ) * P.width) 40)
          (P.y_pos + cppDiv (P.height * (spacing : ℤ)) 5)
          (cppDiv P.width (2 * 40)) WHITE]
      else []) ++ dashAux P spacing (j + 1) fuel

/-- The outer Y-axis scale loop of `DrawGraph` (lines 117-125):
`for (int spacing = 0; spacing <= yticks; spacing++)`, drawing the
dashes then the numeric label `Y1Max - Y1Max / yticks * spacing`. -/
def gridAux (P : GParams) (Y1 : ℤ) (spacing : ℕ) : ℕ → List DrawCall
  | 0 => []
  | fuel + 1 =>
      dashAux P spacing 0 40
      ++ [DrawCall.setTextColor YELLOW,
          DrawCall.setCursor (P.x_pos - 20)
            (P.y_pos + cppDiv (P.height * (spacing : ℤ)) 5 - 4),
          DrawCall.printInt (Y1 - cppDiv Y1 5 * (spacing : ℤ))]
      ++ gridAux P Y1 (spacing + 1) fuel

/-- Function `DrawGraph` (lines 85-126) over an array of `cap + 1` float slots
(slot 0 unused): autoscale resolution, frame and title, series draw,
then gridlines and labels.  Returns the final contents of the data
array (threaded through every loop that touches it) together with the
emitted draw-call sequence. -/
def drawGraph (cap : ℕ) (P : GParams) (data : List ℚ) :
    List ℚ × List DrawCall :=
  let s := if P.auto_scale then scanAux data 0 1 cap else (data, 0)
  let Y1 := effectiveBound P.auto_scale s.2 P.Y1Max
  let ser := seriesAux P Y1 cap s.1 1 cap
  (ser.1,
    [DrawCall.drawRect P.x_pos P.y_pos (P.width + 2) (P.height + 3) WHITE,
     DrawCall.setTextSize 2,
     DrawCall.setTextColor P.graph_colour,
     DrawCall.setCursor
       (P.x_pos + cppDiv (P.width - (P.title.length : ℤ) * 12) 2)
       (P.y_pos - 20),
     DrawCall.printStr P.title,
     DrawCall.setTextSize 1]
    ++ ser.2
    ++ gridAux P Y1 0 6)

/-- The parameters of the temperature graph call (line 188):
`DrawGraph(105,20, 200,80,50, "Temperature",temp_readings, autoscale_on,  barchart_off, RED);` -/
def tempGraphParams : GParams :=
  ⟨105, 20, 200, 80, 50, "Temperature", true, false, RED⟩

/-- The parameters of the humidity graph call (line 189):
`DrawGraph(105,150,200,80,100,"Humidity",   humi_readings, autoscale_off, barchart_on,  BLUE);` -/
def humiGraphParams : GParams :=
  ⟨105, 150, 200, 80, 100, "Humidity", false, true, BLUE⟩

/-- The update of a running minimum by one tick of `loop`
(lines 163, 165): `if (temperature < min_temp) min_temp = temperature;`.
A NaN reading (`none`) compares false and leaves the minimum alone. -/
def updMin (v : FVal) (m : ℚ) : ℚ :=
  match v with
  | none => m
  | some q => if q < m then q else m

/-- The update of a running maximum by one tick of `loop`
(lines 162, 164): `if (temperature > max_temp) max_temp = temperature;`. -/
def updMax (v : FVal) (m : ℚ) : ℚ :=
  match v with
  | none => m
  | some q => if m < q then q else m

/-- The scroll loop body of `loop` (lines 194-197), for one array:
`for (int i = 1; i < max_readings; i++) readings[i] = readings[i+1];`
with the counter starting at `i` and running for `fuel` iterations. -/
def scrollAux (a : List FVal) (i : ℕ) : ℕ → List FVal
  | 0 => a
  | fuel + 1 => scrollAux (a.set i (a.getD (i + 1) none)) (i + 1) fuel

/-- The full scroll of one `cap + 1`-slot array: iterations
`i = 1 .. cap - 1`. -/
def scrollArr (cap : ℕ) (a : List FVal) : List FVal := scrollAux a 1 (cap - 1)

/-- The net effect of one `loop` iteration on one readings array
(lines 160-161 and 191-200): write the new value at index `reading`
(before the graphs are drawn), then, if `reading + 1` exceeds
`max_readings`, scroll left and rewrite the last slot. -/
def stepArr (cap : ℕ) (a : List FVal) (r : ℕ) (v : FVal) : List FVal :=
  let a1 := a.set r v
  if cap < r + 1 then (scrollArr cap a1).set cap v else a1

/-- The net effect of one `loop` iteration on the global `reading`
index (lines 191-193). -/
def stepReading (cap : ℕ) (r : ℕ) : ℕ :=
  if cap < r + 1 then cap else r + 1

/-- The global mutable state of the sketch touched by `loop`: the two
readings arrays (each `cap + 1` slots), the shared `reading` index and
the four running extrema. -/
structure Stores where
  temp : List FVal
  humi : List FVal
  reading : ℕ
  min_temp : ℚ
  max_temp : ℚ
  min_humi : ℚ
  max_humi : ℚ
  deriving DecidableEq

/-- The state after `setup` (lines 45, 49-51, 142-145): both arrays
zeroed over all `cap + 1` slots, `reading = 1`, and the extrema preset
to `min = 100`, `max = -100`. -/
def initState (cap : ℕ) : Stores :=
  ⟨List.replicate (cap + 1) (some 0), List.replicate (cap + 1) (some 0),
   1, 100, -100, 100, -100⟩

/-- One full iteration of `loop` with the global `temperature` and
`humidity` holding `t` and `h` (a `none` models a NaN from a failed
DHT read: `get_temperature_and_humidity` still assigns both globals
before its early return, and `loop` appends them unconditionally).
The two arrays evolve by `stepArr` (the source interleaves the
temperature and humidity statements, which touch disjoint arrays), the
shared index by `stepReading`, and the extrema by the four guarded
updates of lines 162-165. -/
def tick (cap : ℕ) (s : Stores) (t h : FVal) : Stores :=
  { temp := stepArr cap s.temp s.reading t
    humi := stepArr cap s.humi s.reading h
    reading := stepReading cap s.reading
    min_temp := updMin t s.min_temp
    max_temp := updMax t s.max_temp
    min_humi := updMin h s.min_humi
    max_humi := updMax h s.max_humi }

/-- A run of `loop`: fold `tick` over a list of
(temperature, humidity) pairs. -/
def runTicks (cap : ℕ) (s : Stores) (ps : List (FVal × FVal)) : Stores :=
  ps.foldl (fun s p => tick cap s p.1 p.2) s

/-- The temperature array exactly as `DrawGraph` consults it on the
tick that appends `t`: the new value has been written at index
`reading` (line 160) but the post-render scroll has not yet happened;
the renderer reads slots `1 .. cap`. -/
def snapTemp (cap : ℕ) (s : Stores) (t : FVal) : List FVal :=
  ((s.temp.set s.reading t).drop 1).take cap

/-- The humidity array exactly as `DrawGraph` consults it on the tick
that appends `h` (line 161, slots `1 .. cap`). -/
def snapHumi (cap : ℕ) (s : Stores) (h : FVal) : List FVal :=
  ((s.humi.set s.reading h).drop 1).take cap

/-- Every readings-array index used during one `loop` iteration whose
`reading` value is `r`, in program order: the two appends at `r`
(lines 160-161), the autoscale scan of the temperature graph (line 90,
slots `1 .. cap`), the series loops of both graphs (lines 104-115,
slots `1 .. cap` each), and, when the scroll triggers, its reads at
`i + 1` and writes at `i` for `i = 1 .. cap - 1` plus the final writes
at `cap` (lines 194-199). -/
def tickAccesses (cap : ℕ) (r : ℕ) : List ℕ :=
  [r]
  ++ (List.range cap).map (· + 1)
  ++ (List.range cap).map (· + 1)
  ++ (List.range cap).map (· + 1)
  ++ (if cap < r + 1 then
        (List.range (cap - 1)).map (· + 2)
        ++ (List.range (cap - 1)).map (· + 1)
        ++ [cap]
      else [])

/-- The data array used in the C2 scenario: all 201 slots zero except
one sample of 20. -/
def dataC2 : List ℚ := (List.replicate 201 (0 : ℚ)).set 5 20

/-- A render request identical to the temperature call except that the
hint is 0 and autoscale is off, so the effective upper bound resolves
to 0. -/
def zeroBoundParams : GParams :=
  ⟨105, 20, 200, 80, 0, "Temperature", false, false, RED⟩

/-- The evolution of one readings array (and the `reading` index) over
a run of ticks: fold of the per-tick `stepArr` / `stepReading` pair. -/
def runArr (cap : ℕ) (st : List FVal × ℕ) (vs : List FVal) :
    List FVal × ℕ :=
  vs.foldl (fun st v => (stepArr cap st.1 st.2 v, stepReading cap st.2)) st

/-- The invariant tying one readings array to the full history `vs` of
values appended so far: while filling, the array holds slot 0's zero,
the history, and the untouched zero slots, with `reading` one past the
fill; once full, slots `1 .. cap` hold the last `cap - 1` history
values followed by a duplicate of the newest (the post-render scroll
has already run), with `reading` pinned at `cap`. -/
def arrInv (cap : ℕ) (vs : List FVal) (st : List FVal × ℕ) : Prop :=
  if vs.length < cap then
    st.1 = some 0 :: vs ++ List.replicate (cap - vs.length) (some 0)
    ∧ st.2 = vs.length + 1
  else
    st.1 = some 0 :: vs.drop (vs.length + 1 - cap)
        ++ [vs.getD (vs.length - 1) none]
    ∧ st.2 = cap

/-! Helper lemmas about the C++ arithmetic primitives -/

theorem cppTrunc_of_nonneg {q : ℚ} (h : 0 ≤ q) : cppTrunc q = ⌊q⌋ := by
  rw [Rat.floor_def]
  exact Int.tdiv_eq_ediv (Rat.num_nonneg.2 h) (Int.natCast_nonneg _)

theorem cppTrunc_of_nonpos {q : ℚ} (h : q ≤ 0) : cppTrunc q = ⌈q⌉ := by
  have h1 : cppTrunc (-q) = ⌊-q⌋ := cppTrunc_of_nonneg (by linarith)
  have h2 : cppTrunc (-q) = -cppTrunc q := by
    show (-q).num.tdiv (-q).den = -q.num.tdiv q.den
    rw [Rat.neg_num]
    show (-q.num).tdiv q.den = -q.num.tdiv q.den
    exact Int.neg_tdiv q.num q.den
  have h3 : ⌊-q⌋ = -⌈q⌉ := Int.floor_neg
  omega

/-- Truncation toward zero maps a rational lying between two integers
to an integer between them. -/
theorem cppTrunc_bounds {a b : ℤ} {q : ℚ} (ha : (a : ℚ) ≤ q) (hb : q ≤ (b : ℚ)) :
    a ≤ cppTrunc q ∧ cppTrunc q ≤ b := by
  rcases le_total 0 q with h | h
  · rw [cppTrunc_of_nonneg h]
    refine ⟨Int.le_floor.2 ha, ?_⟩
    calc ⌊q⌋ ≤ ⌊(b : ℚ)⌋ := Int.floor_le_floor hb
      _ = b := Int.floor_intCast b
  · rw [cppTrunc_of_nonpos h]
    refine ⟨?_, Int.ceil_le.2 hb⟩
    calc a = ⌈(a : ℚ)⌉ := (Int.ceil_intCast a).symm
      _ ≤ ⌈q⌉ := Int.ceil_le_ceil ha

/-! Helper lemmas about the renderer loops -/

theorem scanAux_fst (data : List ℚ) (m : ℤ) (i fuel : ℕ) :
    (scanAux data m i fuel).1 = data := by
  induction fuel generalizing m i with
  | zero => rfl
  | succ fuel ih => exact ih _ _

theorem seriesAux_fst (P : GParams) (Y1 : ℤ) (cap : ℕ) (data : List ℚ)
    (gx fuel : ℕ) : (seriesAux P Y1 cap data gx fuel).1 = data := by
  induction fuel generalizing gx with
  | zero => rfl
  | succ fuel ih => exact ih _

/-- The scan variable `maxYscale` stays nonnegative throughout: it
starts at `0` and is only overwritten by the truncation of a sample
that is at least its (nonnegative) current value. -/
theorem scanAux_snd_nonneg (data : List ℚ) (i fuel : ℕ) :
    ∀ m : ℤ, 0 ≤ m → 0 ≤ (scanAux data m i fuel).2 := by
  induction fuel generalizing i with
  | zero => exact fun m hm => hm
  | succ fuel ih =>
    intro m hm
    apply ih
    split
    · next hle =>
      have hq : (0 : ℚ) ≤ data.getD i 0 :=
        le_trans (by exact_mod_cast hm) hle
      rw [cppTrunc_of_nonneg hq]
      exact Int.floor_nonneg.2 hq
    · exact hm

theorem scanMax_nonneg (cap : ℕ) (data : List ℚ) : 0 ≤ scanMax cap data :=
  scanAux_snd_nonneg data 1 cap 0 le_rfl

/-- The autoscale scan splits over its iteration count: scanning
`f + g` slots is scanning `f` slots and continuing from the resulting
`maxYscale`. -/
theorem scanAux_snd_add (data : List ℚ) (f : ℕ) :
    ∀ (i g : ℕ) (m : ℤ),
      (scanAux data m i (f + g)).2
        = (scanAux data (scanAux data m i f).2 (i + f) g).2 := by
  induction f with
  | zero => intro i g m; simp [scanAux]
  | succ f ih =>
    intro i g m
    have h1 : f + 1 + g = (f + g) + 1 := by omega
    have h2 : i + (f + 1) = (i + 1) + f := by omega
    rw [h1, h2]
    show (scanAux data _ (i + 1) (f + g)).2
      = (scanAux data (scanAux data _ (i + 1) f).2 ((i + 1) + f) g).2
    exact ih (i + 1) g _

/-! Claim C2: autoscale candidate formula -/

theorem scanC2_chunk1 : (scanAux dataC2 0 1 50).2 = 20 := by
  with_unfolding_all decide

theorem scanC2_chunk2 : (scanAux dataC2 20 51 50).2 = 20 := by
  with_unfolding_all decide

theorem scanC2_chunk3 : (scanAux dataC2 20 101 50).2 = 20 := by
  with_unfolding_all decide

theorem scanC2_chunk4 : (scanAux dataC2 20 151 50).2 = 20 := by
  with_unfolding_all decide

/-- The autoscale scan of the C2 scenario array finds 20, computed in
four 50-slot chunks to keep each evaluation shallow. -/
theorem scanMax_dataC2 : scanMax 200 dataC2 = 20 := by
  show (scanAux dataC2 0 1 (50 + (50 + (50 + 50)))).2 = 20
  rw [scanAux_snd_add, scanC2_chunk1, scanAux_snd_add, scanC2_chunk2,
    scanAux_snd_add, scanC2_chunk3]
  exact scanC2_chunk4

/-- C2 counterexample: with autoscale on, hint 50 and a maximum sample
of 20, `DrawGraph` computes `maxYscale = ((20 + 5 + 2) / 5) * 5 = 25`
with C++ truncating integer division, so the effective upper bound
becomes 25 — not the 30 the ceiling formula of the claim predicts. -/
theorem c2_ceil_counterexample :
    effectiveBound true (scanMax 200 dataC2) 50 = 25
    ∧ effectiveBound true (scanMax 200 dataC2) 50 ≠ 30 := by
  rw [scanMax_dataC2]
  exact ⟨by decide, by decide⟩

/-- C2 (amended): the autoscale scan takes the maximum over all
capacity slots (truncating each float toward zero as it is stored in
the `int` variable `maxYscale`), and the candidate is
`floor((max_value + 5 + 2) / 5) * 5` — truncating (floor, since the
numerator is nonnegative) integer division, not ceiling; the bound
becomes the candidate exactly when the candidate is below the hint.
In the scenario with hint 50 and maximum sample 20 the effective
bound becomes 25. -/
theorem c2_autoscale_floor_formula :
    (∀ (cap : ℕ) (data : List ℚ) (hint : ℤ),
        effectiveBound true (scanMax cap data) hint
          = if (scanMax cap data + 7) / 5 * 5 < hint
            then (scanMax cap data + 7) / 5 * 5 else hint)
    ∧ effectiveBound true (scanMax 200 dataC2) 50 = 25 := by
  refine ⟨fun cap data hint => ?_, ?_⟩
  · have h0 : 0 ≤ scanMax cap data := scanMax_nonneg cap data
    have h7 : scanMax cap data + 5 + 2 = scanMax cap data + 7 := by ring
    simp only [effectiveBound, cppDiv, if_true]
    rw [h7, Int.tdiv_eq_ediv (by omega) (by omega)]
  · rw [scanMax_dataC2]
    decide

/-! Claim C5: scaled y-coordinates -/

/-- C5 counterexample: at the temperature graph's position
(`y_pos = 20`, `height = 80`) with effective upper bound 50, a sample
of 0 (the initial value of every unfilled slot) is scaled to
`py = 20 + 80 - 0 + 1 = 101`, which lies outside the claimed band
`[y, y + height] = [20, 100]`. -/
theorem c5_offscale_counterexample :
    py 20 80 50 0 = 101 ∧ ¬(20 ≤ py 20 80 50 0 ∧ py 20 80 50 0 ≤ 20 + 80) := by
  with_unfolding_all decide

/-- C5 (amended): because of the trailing `+ 1` in the scaling formula,
every scaled y-coordinate `y2` computed from a clamped sample lies in
`[y_pos + 1, y_pos + height + 1]` (one pixel below the claimed band),
for every sample value, whenever the effective upper bound is positive
and the height nonnegative. -/
theorem c5_scaled_y_in_band (y_pos height Y1Max : ℤ) (v : ℚ)
    (hU : 0 < Y1Max) (hh : 0 ≤ height) :
    y_pos + 1 ≤ py y_pos height Y1Max v
    ∧ py y_pos height Y1Max v ≤ y_pos + height + 1 := by
  have hU' : (0 : ℚ) < (Y1Max : ℚ) := by exact_mod_cast hU
  have hh' : (0 : ℚ) ≤ (height : ℚ) := by exact_mod_cast hh
  have hc0 : 0 ≤ constrain v 0 (Y1Max : ℚ) := by
    unfold constrain; split_ifs <;> linarith
  have hcU : constrain v 0 (Y1Max : ℚ) ≤ (Y1Max : ℚ) := by
    unfold constrain; split_ifs <;> linarith
  have hdiv0 : 0 ≤ constrain v 0 (Y1Max : ℚ) * height / Y1Max :=
    div_nonneg (mul_nonneg hc0 hh') hU'.le
  have hdivh : constrain v 0 (Y1Max : ℚ) * height / Y1Max ≤ height := by
    rw [div_le_iff₀ hU']
    calc constrain v 0 (Y1Max : ℚ) * height
        ≤ Y1Max * height := mul_le_mul_of_nonneg_right hcU hh'
      _ = height * Y1Max := mul_comm _ _
  unfold py
  refine cppTrunc_bounds ?_ ?_
  · push_cast
    linarith
  · push_cast
    linarith

/-- Witness for C5 (amended) at `y_pos = 20`, `height = 80`,
`Y1Max = 50`, sample 37. -/
theorem c5_scaled_y_in_band_witness :
    20 + 1 ≤ py 20 80 50 37 ∧ py 20 80 50 37 ≤ 20 + 80 + 1 :=
  c5_scaled_y_in_band 20 80 50 37 (by decide) (by decide)

/-! Claim C6: autoscale never exceeds the hint -/

/-- C6: with the autoscale flag set, the resolved effective upper bound
never exceeds the provided hint, whatever the sample data: the bound is
replaced only when the candidate is strictly smaller. -/
theorem c6_autoscale_le_hint (cap : ℕ) (data : List ℚ) (hint : ℤ) :
    effectiveBound true (scanMax cap data) hint ≤ hint := by
  simp only [effectiveBound, if_true]
  split
  · next h => exact le_of_lt h
  · exact le_rfl

/-! Claim C7: no guard on a nonpositive effective bound -/

/-- The number of draw calls emitted by the series loop: one `drawLine`
per slot in bar mode, two `drawPixel`s per slot in line mode. -/
theorem seriesAux_snd_length (P : GParams) (Y1 : ℤ) (cap : ℕ)
    (data : List ℚ) (gx fuel : ℕ) :
    ((seriesAux P Y1 cap data gx fuel).2).length
      = (if P.barchart_mode then 1 else 2) * fuel := by
  induction fuel generalizing gx with
  | zero => rfl
  | succ fuel ih =>
    cases hB : P.barchart_mode <;>
      simp only [seriesAux, hB, List.length_append, ih, if_true, if_false,
        Bool.false_eq_true, List.length_cons, List.length_nil] <;>
      omega

/-- C7 counterexample: `DrawGraph` contains no validity check at all —
called with an effective upper bound of 0 it is not rejected, but
proceeds to emit the complete sequence of 624 draw calls (6 frame and
title calls, 2 pixels for each of the 200 slots, 200 dashes and 18
scale-label calls), the series ones computed from the
division-by-zero scaling expression. -/
theorem c7_no_guard_counterexample :
    (drawGraph 200 zeroBoundParams (List.replicate 201 (0 : ℚ))).2 ≠ []
    ∧ ((drawGraph 200 zeroBoundParams (List.replicate 201 (0 : ℚ))).2).length
        = 624 := by
  have hgrid : (gridAux zeroBoundParams 0 0 6).length = 218 := by decide
  have hlen : ((drawGraph 200 zeroBoundParams
      (List.replicate 201 (0 : ℚ))).2).length = 624 := by
    show ([DrawCall.drawRect 105 20 202 83 WHITE, DrawCall.setTextSize 2,
      DrawCall.setTextColor RED,
      DrawCall.setCursor (105 + cppDiv (200 - 11 * 12) 2) 0,
      DrawCall.printStr "Temperature", DrawCall.setTextSize 1]
      ++ (seriesAux zeroBoundParams 0 200 (List.replicate 201 (0 : ℚ)) 1 200).2
      ++ gridAux zeroBoundParams 0 0 6).length = 624
    rw [List.length_append, List.length_append, seriesAux_snd_length, hgrid]
    rfl
  refine ⟨fun h => ?_, hlen⟩
  rw [h] at hlen
  exact absurd hlen (by decide)

/-- C7 (amended): the sketch performs no explicit guard and has no
`InvalidConfig` path; instead, at both of its call sites the effective
upper bound is provably positive for every possible sample array — the
autoscale candidate is always at least 5, so the temperature call's
bound is at least `min 5 50 > 0`, and the humidity call has autoscale
off with hint 100 — so the scaling division is never by zero in this
program. -/
theorem c7_effective_bound_positive (cap : ℕ) (data : List ℚ) :
    0 < effectiveBound tempGraphParams.auto_scale (scanMax cap data)
          tempGraphParams.Y1Max
    ∧ 0 < effectiveBound humiGraphParams.auto_scale (scanMax cap data)
          humiGraphParams.Y1Max := by
  have h0 : 0 ≤ scanMax cap data := scanMax_nonneg cap data
  constructor
  · simp only [effectiveBound, tempGraphParams, cppDiv, if_true]
    rw [Int.tdiv_eq_ediv (by omega) (by omega)]
    split <;> omega
  · simp only [effectiveBound, humiGraphParams, Bool.false_eq_true, if_false]
    omega

/-! Claim C8: the renderer is deterministic -/

/-- C8: `DrawGraph` is a pure function of the render request and the
sample array: two calls with identical store contents and identical
parameters produce identical draw-call sequences. -/
theorem c8_deterministic (cap : ℕ) (P Q : GParams) (d e : List ℚ)
    (hPQ : P = Q) (hde : d = e) : drawGraph cap P d = drawGraph cap Q e := by
  subst hPQ
  subst hde
  rfl

/-- Witness for C8 at the temperature call on an all-zero array. -/
theorem c8_deterministic_witness :
    drawGraph 200 tempGraphParams (List.replicate 201 (0 : ℚ))
      = drawGraph 200 tempGraphParams (List.replicate 201 (0 : ℚ)) :=
  c8_deterministic 200 tempGraphParams tempGraphParams
    (List.replicate 201 (0 : ℚ)) (List.replicate 201 (0 : ℚ)) rfl rfl

/-! Claim C9: the renderer does not mutate the series -/

/-- C9: after any `DrawGraph` call the sample array is unchanged: the
autoscale scan and the series loop (the only parts that touch it) only
read it, for every combination of the autoscale and bar-mode flags. -/
theorem c9_no_mutation (cap : ℕ) (P : GParams) (data : List ℚ) :
    (drawGraph cap P data).1 = data := by
  cases hA : P.auto_scale <;>
    simp only [drawGraph, hA, Bool.false_eq_true, if_false, if_true,
      seriesAux_fst, scanAux_fst]

/-! Claim C3: a failed read is not actually skipped -/

/-- C3 (code bug): on a tick whose temperature read fails,
`get_temperature_and_humidity` returns early — but only out of the
helper; the globals have already been overwritten, and `loop`
unconditionally appends them (lines 160-161), renders, and advances
`reading`.  Starting from the freshly initialised state, a failed
temperature read together with a humidity reading of 51 leaves NaN in
`temp_readings[1]`, 51 in `humi_readings[1]` and `reading = 2`,
whereas both slots held 0 (and `reading` was 1) before the tick: the
stores do change. -/
theorem c3_failed_read_still_appends :
    (tick 200 (initState 200) none (some 51)).temp.getD 1 none = none
    ∧ (tick 200 (initState 200) none (some 51)).humi.getD 1 none = some 51
    ∧ (tick 200 (initState 200) none (some 51)).reading = 2
    ∧ (initState 200).temp.getD 1 none = some 0
    ∧ (initState 200).humi.getD 1 none = some 0
    ∧ (initState 200).reading = 1 := by
  with_unfolding_all decide

/-! Claim C4: running extrema and their sentinels -/

theorem updMin_some (q m : ℚ) : updMin (some q) m = min m q := by
  simp only [updMin]
  rcases lt_trichotomy q m with h | h | h
  · rw [if_pos h, min_eq_right h.le]
  · subst h
    simp
  · rw [if_neg (not_lt.2 h.le), min_eq_left h.le]

theorem updMax_some (q m : ℚ) : updMax (some q) m = max m q := by
  simp only [updMax]
  rcases lt_trichotomy m q with h | h | h
  · rw [if_pos h, max_eq_right h.le]
  · subst h
    simp
  · rw [if_neg (not_lt.2 h.le), max_eq_left h.le]

theorem runTicks_min_temp (cap : ℕ) (ps : List (FVal × FVal)) :
    ∀ s, (runTicks cap s ps).min_temp
      = ps.foldl (fun m p => updMin p.1 m) s.min_temp := by
  induction ps with
  | nil => intro s; rfl
  | cons p ps ih => intro s; exact ih _

theorem runTicks_max_temp (cap : ℕ) (ps : List (FVal × FVal)) :
    ∀ s, (runTicks cap s ps).max_temp
      = ps.foldl (fun m p => updMax p.1 m) s.max_temp := by
  induction ps with
  | nil => intro s; rfl
  | cons p ps ih => intro s; exact ih _

theorem runTicks_min_humi (cap : ℕ) (ps : List (FVal × FVal)) :
    ∀ s, (runTicks cap s ps).min_humi
      = ps.foldl (fun m p => updMin p.2 m) s.min_humi := by
  induction ps with
  | nil => intro s; rfl
  | cons p ps ih => intro s; exact ih _

theorem runTicks_max_humi (cap : ℕ) (ps : List (FVal × FVal)) :
    ∀ s, (runTicks cap s ps).max_humi
      = ps.foldl (fun m p => updMax p.2 m) s.max_humi := by
  induction ps with
  | nil => intro s; rfl
  | cons p ps ih => intro s; exact ih _

theorem foldl_updMin_fst_some (qs : List (ℚ × ℚ)) :
    ∀ m : ℚ, (qs.map fun p => ((some p.1 : FVal), (some p.2 : FVal))).foldl
        (fun m p => updMin p.1 m) m
      = qs.foldl (fun m p => min m p.1) m := by
  induction qs with
  | nil => intro m; rfl
  | cons q qs ih =>
    intro m
    simp only [List.map_cons, List.foldl_cons, updMin_some]
    exact ih _

theorem foldl_updMax_fst_some (qs : List (ℚ × ℚ)) :
    ∀ m : ℚ, (qs.map fun p => ((some p.1 : FVal), (some p.2 : FVal))).foldl
        (fun m p => updMax p.1 m) m
      = qs.foldl (fun m p => max m p.1) m := by
  induction qs with
  | nil => intro m; rfl
  | cons q qs ih =>
    intro m
    simp only [List.map_cons, List.foldl_cons, updMax_some]
    exact ih _

theorem foldl_updMin_snd_some (qs : List (ℚ × ℚ)) :
    ∀ m : ℚ, (qs.map fun p => ((some p.1 : FVal), (some p.2 : FVal))).foldl
        (fun m p => updMin p.2 m) m
      = qs.foldl (fun m p => min m p.2) m := by
  induction qs with
  | nil => intro m; rfl
  | cons q qs ih =>
    intro m
    simp only [List.map_cons, List.foldl_cons, updMin_some]
    exact ih _

theorem foldl_updMax_snd_some (qs : List (ℚ × ℚ)) :
    ∀ m : ℚ, (qs.map fun p => ((some p.1 : FVal), (some p.2 : FVal))).foldl
        (fun m p => updMax p.2 m) m
      = qs.foldl (fun m p => max m p.2) m := by
  induction qs with
  | nil => intro m; rfl
  | cons q qs ih =>
    intro m
    simp only [List.map_cons, List.foldl_cons, updMax_some]
    exact ih _

theorem foldl_min_le_init (vs : List ℚ) : ∀ m : ℚ, vs.foldl min m ≤ m := by
  induction vs with
  | nil => intro m; exact le_rfl
  | cons v vs ih =>
    intro m
    exact le_trans (ih (min m v)) (min_le_left m v)

theorem foldl_min_le_mem (vs : List ℚ) :
    ∀ (m v : ℚ), v ∈ vs → vs.foldl min m ≤ v := by
  induction vs with
  | nil => intro m v hv; cases hv
  | cons w vs ih =>
    intro m v hv
    rcases List.mem_cons.1 hv with rfl | hv
    · exact le_trans (foldl_min_le_init vs (min m v)) (min_le_right m v)
    · exact ih _ v hv

theorem le_foldl_max_init (vs : List ℚ) : ∀ m : ℚ, m ≤ vs.foldl max m := by
  induction vs with
  | nil => intro m; exact le_rfl
  | cons v vs ih =>
    intro m
    exact le_trans (le_max_left m v) (ih (max m v))

theorem mem_le_foldl_max (vs : List ℚ) :
    ∀ (m v : ℚ), v ∈ vs → v ≤ vs.foldl max m := by
  induction vs with
  | nil => intro m v hv; cases hv
  | cons w vs ih =>
    intro m v hv
    rcases List.mem_cons.1 hv with rfl | hv
    · exact le_trans (le_max_right m v) (le_foldl_max_init vs (max m v))
    · exact ih _ v hv

/-- C4 counterexample: appending the single (finite) reading 101 —
e.g. a humidity of 100 % plus the sketch's `+1` error offset — leaves
the running minimum at its preset sentinel 100, which is *not* the
true minimum 101 of the appended values: the sentinel is not
guaranteed to be replaced by the first real reading, and the reported
minimum can be a value that was never read. -/
theorem c4_sentinel_counterexample :
    (runTicks 200 (initState 200) [(some 101, some 101)]).min_temp = 100
    ∧ (runTicks 200 (initState 200) [(some 101, some 101)]).min_temp ≠ 101 := by
  with_unfolding_all decide

/-- C4 (amended): after any sequence of finite appends, each store's
running minimum is `min` of the preset sentinel 100 and all appended
values, and its running maximum is `max` of the sentinel -100 and all
appended values (folded in order); consequently the running extrema
bound every appended value, but they equal the true extrema only when
some appended value falls below 100 (respectively above -100) — the
sentinels are not guaranteed to be replaced. -/
theorem c4_extrema_with_sentinels (cap : ℕ) (qs : List (ℚ × ℚ)) :
    (runTicks cap (initState cap)
        (qs.map fun p => ((some p.1 : FVal), (some p.2 : FVal)))).min_temp
      = qs.foldl (fun m p => min m p.1) 100
    ∧ (runTicks cap (initState cap)
        (qs.map fun p => ((some p.1 : FVal), (some p.2 : FVal)))).max_temp
      = qs.foldl (fun m p => max m p.1) (-100)
    ∧ (runTicks cap (initState cap)
        (qs.map fun p => ((some p.1 : FVal), (some p.2 : FVal)))).min_humi
      = qs.foldl (fun m p => min m p.2) 100
    ∧ (runTicks cap (initState cap)
        (qs.map fun p => ((some p.1 : FVal), (some p.2 : FVal)))).max_humi
      = qs.foldl (fun m p => max m p.2) (-100)
    ∧ (∀ p ∈ qs,
        (runTicks cap (initState cap)
            (qs.map fun p => ((some p.1 : FVal), (some p.2 : FVal)))).min_temp
          ≤ p.1
        ∧ p.1 ≤ (runTicks cap (initState cap)
            (qs.map fun p => ((some p.1 : FVal), (some p.2 : FVal)))).max_temp) := by
  refine ⟨?_, ?_, ?_, ?_, ?_⟩
  · rw [runTicks_min_temp, foldl_updMin_fst_some]
    rfl
  · rw [runTicks_max_temp, foldl_updMax_fst_some]
    rfl
  · rw [runTicks_min_humi, foldl_updMin_snd_some]
    rfl
  · rw [runTicks_max_humi, foldl_updMax_snd_some]
    rfl
  · intro p hp
    rw [runTicks_min_temp, foldl_updMin_fst_some,
      runTicks_max_temp, foldl_updMax_fst_some]
    constructor
    · have := foldl_min_le_mem (qs.map Prod.fst) 100 p.1
        (List.mem_map.2 ⟨p, hp, rfl⟩)
      rwa [List.foldl_map] at this
    · have := mem_le_foldl_max (qs.map Prod.fst) (-100) p.1
        (List.mem_map.2 ⟨p, hp, rfl⟩)
      rwa [List.foldl_map] at this

/-- Witness for C4 (amended) on the single appended pair (21, 51). -/
theorem c4_extrema_with_sentinels_witness :
    (runTicks 200 (initState 200) [(some 21, some 51)]).min_temp ≤ 21
    ∧ (21 : ℚ) ≤ (runTicks 200 (initState 200) [(some 21, some 51)]).max_temp :=
  (c4_extrema_with_sentinels 200 [((21 : ℚ), (51 : ℚ))]).2.2.2.2
    (21, 51) (by simp)

/-! Claim C1: render-time snapshot of the rolling store -/

theorem getD_set_ne {α : Type} (l : List α) {i j : ℕ} (x d : α) (h : i ≠ j) :
    (l.set i x).getD j d = l.getD j d := by
  simp [List.getD_eq_getElem?_getD, List.getElem?_set_ne h]

theorem getD_append_length {α : Type} (l : List α) (x d : α) :
    (l ++ [x]).getD l.length d = x := by
  simp [List.getD_eq_getElem?_getD, List.getElem?_append_right (le_refl l.length)]

/-- Writing at the position of the last element of a snoc list
replaces that element. -/
theorem set_snoc_last {α : Type} (l : List α) (x v : α) :
    (l ++ [x]).set l.length v = l ++ [v] := by
  rw [List.set_append_right _ _ (le_refl _)]
  simp

/-- Shape of the scroll loop on a `cap + 1`-slot array: iterating
`a[i] = a[i+1]` for `i = i .. cap - 1` keeps the prefix before `i`,
pulls every later element one slot forward, and leaves the last slot
duplicated. -/
theorem scrollAux_shape (cap : ℕ) :
    ∀ (fuel i : ℕ) (a : List FVal), a.length = cap + 1 → i + fuel = cap →
      1 ≤ i →
      scrollAux a i fuel = a.take i ++ a.drop (i + 1) ++ [a.getD cap none] := by
  intro fuel
  induction fuel with
  | zero =>
    intro i a ha hi h1
    have hic : i = cap := by omega
    subst hic
    have hlt : i < a.length := by omega
    have hdrop : a.drop (i + 1) = [] := List.drop_eq_nil_of_le (by omega)
    have hget : a.getD i none = a[i] := by
      simp [List.getD_eq_getElem?_getD, List.getElem?_eq_getElem hlt]
    show a = a.take i ++ a.drop (i + 1) ++ [a.getD i none]
    rw [hdrop, List.append_nil, hget]
    have h2 := List.take_concat_get a i hlt
    rw [List.concat_eq_append] at h2
    rw [h2, List.take_of_length_le (by omega)]
  | succ fuel ih =>
    intro i a ha hi h1
    have hlt : i < cap := by omega
    show scrollAux (a.set i (a.getD (i + 1) none)) (i + 1) fuel
      = a.take i ++ a.drop (i + 1) ++ [a.getD cap none]
    rw [ih (i + 1) (a.set i (a.getD (i + 1) none))
      (by simp [ha]) (by omega) (by omega)]
    have hgetcap : (a.set i (a.getD (i + 1) none)).getD cap none
        = a.getD cap none := getD_set_ne a _ _ (by omega)
    have hdrop2 : (a.set i (a.getD (i + 1) none)).drop (i + 2)
        = a.drop (i + 2) := by
      rw [List.drop_set, if_pos (by omega)]
    have htake : (a.set i (a.getD (i + 1) none)).take (i + 1)
        = a.take i ++ [a.getD (i + 1) none] := by
      rw [List.set_take]
      have h2 := List.take_concat_get a i (by omega)
      rw [List.concat_eq_append] at h2
      rw [← h2, List.set_append_right _ _ (by simp [List.length_take])]
      have h3 : (a.take i).length = i := by
        rw [List.length_take]
        omega
      simp [h3]
    have hdrop1 : a.drop (i + 1) = a.getD (i + 1) none :: a.drop (i + 2) := by
      have h4 : i + 1 < a.length := by omega
      rw [List.drop_eq_getElem_cons h4]
      congr 1
      simp [List.getD_eq_getElem?_getD, List.getElem?_eq_getElem h4]
    rw [hgetcap, hdrop2, htake, hdrop1]
    simp

/-- Shape of the full scroll (`i = 1 .. cap - 1`) on a
`cap + 1`-slot array. -/
theorem scrollArr_shape (cap : ℕ) (a : List FVal) (ha : a.length = cap + 1)
    (hc : 1 ≤ cap) :
    scrollArr cap a = a.take 1 ++ a.drop 2 ++ [a.getD cap none] :=
  scrollAux_shape cap (cap - 1) 1 a ha (by omega) le_rfl

theorem arrInv_init (cap : ℕ) (hc : 1 ≤ cap) :
    arrInv cap [] (List.replicate (cap + 1) (some 0), 1) := by
  unfold arrInv
  rw [if_pos (show ([] : List FVal).length < cap by simpa using hc)]
  refine ⟨?_, rfl⟩
  show List.replicate (cap + 1) (some 0)
    = some 0 :: [] ++ List.replicate (cap - ([] : List FVal).length) (some 0)
  simp [List.replicate_succ]

/-- Scrolling a full array of the shape `0 :: Z ++ [v]` and rewriting
the last slot with `v` again (lines 194-199) drops the oldest retained
element and duplicates `v`. -/
theorem scroll_set_step (cap : ℕ) (hc : 1 ≤ cap) (Z : List FVal) (v : FVal)
    (hZ : Z.length = cap - 1) :
    (scrollArr cap (some 0 :: Z ++ [v])).set cap v
      = some 0 :: (Z ++ [v]).drop 1 ++ [v] := by
  have hlen : ((some 0 : FVal) :: Z ++ [v]).length = cap + 1 := by
    simp
    omega
  rw [scrollArr_shape cap _ hlen hc]
  have h1 : ((some 0 : FVal) :: Z ++ [v]).take 1 = [(some 0 : FVal)] := rfl
  have h2 : ((some 0 : FVal) :: Z ++ [v]).drop 2 = (Z ++ [v]).drop 1 := rfl
  have h3 : ((some 0 : FVal) :: Z ++ [v]).getD cap none = v := by
    have hcz : cap = Z.length + 1 := by omega
    rw [hcz]
    show ((some 0 : FVal) :: (Z ++ [v])).getD (Z.length + 1) none = v
    rw [List.getD_cons_succ]
    exact getD_append_length Z v none
  have h4 : ([(some 0 : FVal)] ++ ((some 0 : FVal) :: Z ++ [v]).drop 2).length
      = cap := by
    simp
    omega
  rw [h1, h3, ← h4, set_snoc_last, h2]
  simp

theorem arrInv_step (cap : ℕ) (hc : 1 ≤ cap) (vs : List FVal) (v : FVal)
    (st : List FVal × ℕ) (h : arrInv cap vs st) :
    arrInv cap (vs ++ [v]) (stepArr cap st.1 st.2 v, stepReading cap st.2) := by
  obtain ⟨a, r⟩ := st
  by_cases hn : vs.length < cap
  · simp only [arrInv, if_pos hn] at h
    obtain ⟨ha, hr⟩ := h
    have ha1 : a.set r v
        = some 0 :: (vs ++ [v])
            ++ List.replicate (cap - vs.length - 1) (some 0) := by
      rw [ha, hr, List.set_append_right _ _ (by simp)]
      have hrep : cap - vs.length = (cap - vs.length - 1) + 1 := by omega
      rw [show vs.length + 1 - ((some 0 : FVal) :: vs).length = 0 by simp, hrep,
        List.replicate_succ, List.set_cons_zero]
      simp
    by_cases hfull : cap < r + 1
    · -- the append that just filled the last slot: scroll immediately
      have hvscap : vs.length + 1 = cap := by omega
      have ha1q : a.set r v = some 0 :: vs ++ [v] := by
        rw [ha1, show cap - vs.length - 1 = 0 from by omega]
        simp
      show arrInv cap (vs ++ [v])
        (if cap < r + 1 then (scrollArr cap (a.set r v)).set cap v
          else a.set r v,
         if cap < r + 1 then cap else r + 1)
      rw [if_pos hfull, if_pos hfull, ha1q,
        scroll_set_step cap hc vs v (by omega)]
      unfold arrInv
      rw [if_neg (show ¬ (vs ++ [v]).length < cap by simp; omega)]
      refine ⟨?_, rfl⟩
      show some 0 :: (vs ++ [v]).drop 1 ++ [v]
        = some 0 :: (vs ++ [v]).drop ((vs ++ [v]).length + 1 - cap)
            ++ [(vs ++ [v]).getD ((vs ++ [v]).length - 1) none]
      have hd : (vs ++ [v]).length + 1 - cap = 1 := by simp; omega
      have hg : (vs ++ [v]).getD ((vs ++ [v]).length - 1) none = v := by
        have hidx : (vs ++ [v]).length - 1 = vs.length := by simp
        rw [hidx]
        exact getD_append_length vs v none
      rw [hd, hg]
    · -- still filling
      show arrInv cap (vs ++ [v])
        (if cap < r + 1 then (scrollArr cap (a.set r v)).set cap v
          else a.set r v,
         if cap < r + 1 then cap else r + 1)
      rw [if_neg hfull, if_neg hfull, ha1]
      unfold arrInv
      rw [if_pos (show (vs ++ [v]).length < cap by simp; omega)]
      constructor
      · show some 0 :: (vs ++ [v]) ++ List.replicate (cap - vs.length - 1) (some 0)
          = some 0 :: (vs ++ [v])
              ++ List.replicate (cap - (vs ++ [v]).length) (some 0)
        have : cap - vs.length - 1 = cap - (vs ++ [v]).length := by simp; omega
        rw [this]
      · show r + 1 = (vs ++ [v]).length + 1
        simp
        omega
  · simp only [arrInv, if_neg hn] at h
    obtain ⟨ha, hr⟩ := h
    have hT : (vs.drop (vs.length + 1 - cap)).length = cap - 1 := by
      rw [List.length_drop]
      omega
    have hL : ((some 0 : FVal) :: vs.drop (vs.length + 1 - cap)).length
        = cap := by
      simp [hT]
      omega
    have ha1 : a.set r v
        = some 0 :: vs.drop (vs.length + 1 - cap) ++ [v] := by
      rw [ha, hr]
      have hs := set_snoc_last ((some 0 : FVal) :: vs.drop (vs.length + 1 - cap))
        (vs.getD (vs.length - 1) none) v
      rw [hL] at hs
      exact hs
    have hfull : cap < r + 1 := by omega
    show arrInv cap (vs ++ [v])
      (if cap < r + 1 then (scrollArr cap (a.set r v)).set cap v else a.set r v,
       if cap < r + 1 then cap else r + 1)
    rw [if_pos hfull, if_pos hfull, ha1, scroll_set_step cap hc _ v hT]
    unfold arrInv
    rw [if_neg (show ¬ (vs ++ [v]).length < cap by simp; omega)]
    refine ⟨?_, rfl⟩
    show some 0 :: (vs.drop (vs.length + 1 - cap) ++ [v]).drop 1 ++ [v]
      = some 0 :: (vs ++ [v]).drop ((vs ++ [v]).length + 1 - cap)
          ++ [(vs ++ [v]).getD ((vs ++ [v]).length - 1) none]
    have hdrop : (vs.drop (vs.length + 1 - cap) ++ [v]).drop 1
        = (vs ++ [v]).drop ((vs ++ [v]).length + 1 - cap) := by
      rw [← List.drop_append_of_le_length
            (show vs.length + 1 - cap ≤ vs.length by omega),
        List.drop_drop]
      congr 1
      simp
      omega
    have hget : (vs ++ [v]).getD ((vs ++ [v]).length - 1) none = v := by
      have hidx : (vs ++ [v]).length - 1 = vs.length := by simp
      rw [hidx]
      exact getD_append_length vs v none
    rw [hdrop, hget]

/-- The invariant holds for every run from the freshly initialised
array. -/
theorem runArr_inv (cap : ℕ) (hc : 1 ≤ cap) (vs : List FVal) :
    arrInv cap vs (runArr cap (List.replicate (cap + 1) (some 0), 1) vs) := by
  induction vs using List.reverseRecOn with
  | nil => exact arrInv_init cap hc
  | append_singleton vs v ih =>
    have hstep : runArr cap (List.replicate (cap + 1) (some 0), 1) (vs ++ [v])
        = (stepArr cap
            (runArr cap (List.replicate (cap + 1) (some 0), 1) vs).1
            (runArr cap (List.replicate (cap + 1) (some 0), 1) vs).2 v,
           stepReading cap
            (runArr cap (List.replicate (cap + 1) (some 0), 1) vs).2) := by
      simp [runArr, List.foldl_append]
    rw [hstep]
    exact arrInv_step cap hc vs v _ ih

/-- The temperature array and the shared `reading` index of a run are
the single-array evolution over the temperature components. -/
theorem runTicks_temp_proj (cap : ℕ) (ps : List (FVal × FVal)) :
    ∀ s : Stores,
      (runTicks cap s ps).temp
          = (runArr cap (s.temp, s.reading) (ps.map Prod.fst)).1
      ∧ (runTicks cap s ps).reading
          = (runArr cap (s.temp, s.reading) (ps.map Prod.fst)).2 := by
  induction ps with
  | nil => intro s; exact ⟨rfl, rfl⟩
  | cons p ps ih => intro s; exact ih _

/-- The humidity array and the shared `reading` index of a run are the
single-array evolution over the humidity components. -/
theorem runTicks_humi_proj (cap : ℕ) (ps : List (FVal × FVal)) :
    ∀ s : Stores,
      (runTicks cap s ps).humi
          = (runArr cap (s.humi, s.reading) (ps.map Prod.snd)).1
      ∧ (runTicks cap s ps).reading
          = (runArr cap (s.humi, s.reading) (ps.map Prod.snd)).2 := by
  induction ps with
  | nil => intro s; exact ⟨rfl, rfl⟩
  | cons p ps ih => intro s; exact ih _

/-- From the invariant of a full store, the array as the renderer sees
it on the next tick (new value written at `reading`, slots `1 .. cap`)
is exactly the last `cap` appended values, oldest first. -/
theorem snap_of_arrInv (cap : ℕ) (hc : 1 ≤ cap) (vs : List FVal)
    (st : List FVal × ℕ) (rt : FVal) (hn : cap ≤ vs.length)
    (h : arrInv cap vs st) :
    ((st.1.set st.2 rt).drop 1).take cap
      = (vs ++ [rt]).drop (vs.length + 1 - cap) := by
  simp only [arrInv, if_neg (not_lt.2 hn)] at h
  obtain ⟨ha, hr⟩ := h
  have hT : (vs.drop (vs.length + 1 - cap)).length = cap - 1 := by
    rw [List.length_drop]
    omega
  have hL : ((some 0 : FVal) :: vs.drop (vs.length + 1 - cap)).length
      = cap := by
    simp [hT]
    omega
  have hset : st.1.set st.2 rt
      = some 0 :: vs.drop (vs.length + 1 - cap) ++ [rt] := by
    rw [ha, hr]
    have hs := set_snoc_last ((some 0 : FVal) :: vs.drop (vs.length + 1 - cap))
      (vs.getD (vs.length - 1) none) rt
    rw [hL] at hs
    exact hs
  rw [hset]
  show (vs.drop (vs.length + 1 - cap) ++ [rt]).take cap
    = (vs ++ [rt]).drop (vs.length + 1 - cap)
  rw [List.take_of_length_le (by simp [hT]; omega),
    List.drop_append_of_le_length (show vs.length + 1 - cap ≤ vs.length by omega)]

/-- C1: once more values have been appended than the store's capacity,
the array the renderer consults (the `cap` slots `1 .. cap` at render
time, after the new value is written and before the post-render
scroll) is exactly the most recent `cap` appended values in
chronological order, oldest first — simultaneously for the temperature
and the humidity store. -/
theorem c1_snapshot_most_recent (cap : ℕ) (ps : List (FVal × FVal))
    (rt rh : FVal) (hc : 1 ≤ cap) (hn : cap ≤ ps.length) :
    snapTemp cap (runTicks cap (initState cap) ps) rt
      = (ps.map Prod.fst ++ [rt]).drop (ps.length + 1 - cap)
    ∧ (snapTemp cap (runTicks cap (initState cap) ps) rt).length = cap
    ∧ snapHumi cap (runTicks cap (initState cap) ps) rh
      = (ps.map Prod.snd ++ [rh]).drop (ps.length + 1 - cap)
    ∧ (snapHumi cap (runTicks cap (initState cap) ps) rh).length = cap := by
  have hpT := runTicks_temp_proj cap ps (initState cap)
  have hpH := runTicks_humi_proj cap ps (initState cap)
  have hinvT := runArr_inv cap hc (ps.map Prod.fst)
  have hinvH := runArr_inv cap hc (ps.map Prod.snd)
  have hlT : (ps.map Prod.fst).length = ps.length := List.length_map _ _
  have hlH : (ps.map Prod.snd).length = ps.length := List.length_map _ _
  have hT : snapTemp cap (runTicks cap (initState cap) ps) rt
      = (ps.map Prod.fst ++ [rt]).drop (ps.length + 1 - cap) := by
    show (((runTicks cap (initState cap) ps).temp.set
        (runTicks cap (initState cap) ps).reading rt).drop 1).take cap = _
    rw [hpT.1, hpT.2]
    have := snap_of_arrInv cap hc (ps.map Prod.fst)
      (runArr cap ((initState cap).temp, (initState cap).reading)
        (ps.map Prod.fst)) rt (by rw [hlT]; exact hn)
      (by
        show arrInv cap (ps.map Prod.fst)
          (runArr cap (List.replicate (cap + 1) (some 0), 1) (ps.map Prod.fst))
        exact hinvT)
    rw [this, hlT]
  have hH : snapHumi cap (runTicks cap (initState cap) ps) rh
      = (ps.map Prod.snd ++ [rh]).drop (ps.length + 1 - cap) := by
    show (((runTicks cap (initState cap) ps).humi.set
        (runTicks cap (initState cap) ps).reading rh).drop 1).take cap = _
    rw [hpH.1, hpH.2]
    have := snap_of_arrInv cap hc (ps.map Prod.snd)
      (runArr cap ((initState cap).humi, (initState cap).reading)
        (ps.map Prod.snd)) rh (by rw [hlH]; exact hn)
      (by
        show arrInv cap (ps.map Prod.snd)
          (runArr cap (List.replicate (cap + 1) (some 0), 1) (ps.map Prod.snd))
        exact hinvH)
    rw [this, hlH]
  refine ⟨hT, ?_, hH, ?_⟩
  · rw [hT, List.length_drop, List.length_append, hlT]
    simp
    omega
  · rw [hH, List.length_drop, List.length_append, hlH]
    simp
    omega

/-- Witness for C1: the spec's scenario with capacity 5 — appending
10, 20, 30, 40, 50 and then 60 yields the render-time snapshot
`[20, 30, 40, 50, 60]` (obtained by instantiating the general theorem,
whose drop-formula evaluates to exactly that list). -/
theorem c1_snapshot_most_recent_witness :
    snapTemp 5
      (runTicks 5 (initState 5)
        [(some 10, some 10), (some 20, some 20), (some 30, some 30),
         (some 40, some 40), (some 50, some 50)])
      (some 60)
    = [some 20, some 30, some 40, some 50, some 60] := by
  have h := c1_snapshot_most_recent 5
    [(some 10, some 10), (some 20, some 20), (some 30, some 30),
     (some 40, some 40), (some 50, some 50)]
    (some 60) (some 60) (by decide) (by decide)
  rw [h.1]
  with_unfolding_all decide

/-! Claim C10: all array accesses stay in slots 1 .. max_readings -/

theorem scrollAux_getD_zero :
    ∀ (fuel i : ℕ) (a : List FVal), 1 ≤ i →
      (scrollAux a i fuel).getD 0 none = a.getD 0 none := by
  intro fuel
  induction fuel with
  | zero => intro i a hi; rfl
  | succ fuel ih =>
    intro i a hi
    show (scrollAux (a.set i (a.getD (i + 1) none)) (i + 1) fuel).getD 0 none
      = a.getD 0 none
    rw [ih (i + 1) _ (by omega)]
    exact getD_set_ne a _ _ (by omega)

/-- One tick never touches slot 0 of a readings array: the append goes
to `reading ≥ 1`, the scroll writes slots `1 .. cap - 1` and `cap`. -/
theorem stepArr_getD_zero (cap : ℕ) (hc : 1 ≤ cap) (a : List FVal)
    (r : ℕ) (v : FVal) (hr : 1 ≤ r) :
    (stepArr cap a r v).getD 0 none = a.getD 0 none := by
  show (if cap < r + 1 then (scrollArr cap (a.set r v)).set cap v
    else a.set r v).getD 0 none = a.getD 0 none
  split
  · rw [getD_set_ne _ _ _ (by omega)]
    show (scrollAux (a.set r v) 1 (cap - 1)).getD 0 none = a.getD 0 none
    rw [scrollAux_getD_zero (cap - 1) 1 _ le_rfl]
    exact getD_set_ne a _ _ (by omega)
  · exact getD_set_ne a _ _ (by omega)

theorem stepReading_bounds (cap r : ℕ) (hc : 1 ≤ cap) (h1 : 1 ≤ r) :
    1 ≤ stepReading cap r ∧ stepReading cap r ≤ cap := by
  unfold stepReading
  split
  · exact ⟨hc, le_rfl⟩
  · next h => exact ⟨by omega, by omega⟩

/-- Over any run, the `reading` index stays in `[1, cap]` and slot 0
of both arrays keeps whatever it held at the start. -/
theorem runTicks_slot_zero_inv (cap : ℕ) (hc : 1 ≤ cap)
    (ps : List (FVal × FVal)) :
    ∀ s : Stores, 1 ≤ s.reading → s.reading ≤ cap →
      (1 ≤ (runTicks cap s ps).reading
        ∧ (runTicks cap s ps).reading ≤ cap)
      ∧ (runTicks cap s ps).temp.getD 0 none = s.temp.getD 0 none
      ∧ (runTicks cap s ps).humi.getD 0 none = s.humi.getD 0 none := by
  induction ps with
  | nil => intro s h1 h2; exact ⟨⟨h1, h2⟩, rfl, rfl⟩
  | cons p ps ih =>
    intro s h1 h2
    have hb := stepReading_bounds cap s.reading hc h1
    have hrec := ih (tick cap s p.1 p.2) hb.1 hb.2
    refine ⟨hrec.1, ?_, ?_⟩
    · show (runTicks cap (tick cap s p.1 p.2) ps).temp.getD 0 none
        = s.temp.getD 0 none
      rw [hrec.2.1]
      exact stepArr_getD_zero cap hc s.temp s.reading p.1 h1
    · show (runTicks cap (tick cap s p.1 p.2) ps).humi.getD 0 none
        = s.humi.getD 0 none
      rw [hrec.2.2]
      exact stepArr_getD_zero cap hc s.humi s.reading p.2 h1

/-- Every index in the access trace of a tick whose `reading` is in
`[1, cap]` lies in `[1, cap]`. -/
theorem tickAccesses_bounds (cap r : ℕ) (h1 : 1 ≤ r) (h2 : r ≤ cap) :
    ∀ i ∈ tickAccesses cap r, 1 ≤ i ∧ i ≤ cap := by
  intro i hi
  by_cases hf : cap < r + 1
  · simp only [tickAccesses, if_pos hf, List.mem_append, List.mem_singleton,
      List.mem_map, List.mem_range, List.not_mem_nil, or_false] at hi
    rcases hi with (((rfl | ⟨x, hx, rfl⟩) | ⟨x, hx, rfl⟩) | ⟨x, hx, rfl⟩)
      | (⟨x, hx, rfl⟩ | ⟨x, hx, rfl⟩) | rfl
    all_goals omega
  · simp only [tickAccesses, if_neg hf, List.mem_append, List.mem_singleton,
      List.mem_map, List.mem_range, List.not_mem_nil, or_false] at hi
    rcases hi with ((rfl | ⟨x, hx, rfl⟩) | ⟨x, hx, rfl⟩) | ⟨x, hx, rfl⟩
    all_goals omega

/-- C10: in every state reachable from setup, the shared index
`reading` lies in `[1, max_readings]`, every readings-array index used
by the next tick — append, autoscale scan, series draws and scroll —
lies in `[1, max_readings]` (within the `max_readings + 1`-slot
arrays), and slot 0 of both arrays still holds its initial 0. -/
theorem c10_index_bounds (cap : ℕ) (ps : List (FVal × FVal)) (hc : 1 ≤ cap) :
    (1 ≤ (runTicks cap (initState cap) ps).reading
      ∧ (runTicks cap (initState cap) ps).reading ≤ cap)
    ∧ (runTicks cap (initState cap) ps).temp.getD 0 none = some 0
    ∧ (runTicks cap (initState cap) ps).humi.getD 0 none = some 0
    ∧ ∀ i ∈ tickAccesses cap (runTicks cap (initState cap) ps).reading,
        1 ≤ i ∧ i ≤ cap := by
  have h := runTicks_slot_zero_inv cap hc ps (initState cap) le_rfl hc
  have h0 : (initState cap).temp.getD 0 none = some 0 := by
    show (List.replicate (cap + 1) (some 0)).getD 0 none = some 0
    rw [List.replicate_succ]
    rfl
  have h0h : (initState cap).humi.getD 0 none = some 0 := by
    show (List.replicate (cap + 1) (some 0)).getD 0 none = some 0
    rw [List.replicate_succ]
    rfl
  refine ⟨h.1, ?_, ?_, ?_⟩
  · rw [h.2.1]
    exact h0
  · rw [h.2.2]
    exact h0h
  · exact tickAccesses_bounds cap _ h.1.1 h.1.2

/-- Witness for C10 after one tick at the sketch's capacity 200. -/
theorem c10_index_bounds_witness :
    (1 ≤ (runTicks 200 (initState 200) [(some 21, some 51)]).reading
      ∧ (runTicks 200 (initState 200) [(some 21, some 51)]).reading ≤ 200)
    ∧ (runTicks 200 (initState 200)
        [(some 21, some 51)]).temp.getD 0 none = some 0
    ∧ (runTicks 200 (initState 200)
        [(some 21, some 51)]).humi.getD 0 none = some 0
    ∧ ∀ i ∈ tickAccesses 200
          (runTicks 200 (initState 200) [(some 21, some 51)]).reading,
        1 ≤ i ∧ i ≤ 200 :=
  c10_index_bounds 200 [(some 21, some 51)] (by decide)
